import Mathlib

/-!
Shallow embedding of `frontend/src/services/ethereumService.ts`.

The service keeps a list of RPC providers and a cursor `currentProviderIndex`.
Every public operation runs through the failover executor `tryProviders`,
which attempts the providers in rotation order starting from the cursor,
remembers the first provider that succeeds, and throws an aggregate error
when every provider fails.

We model one call to `tryProviders` as a pure function.  A provider attempt
is abstracted as `op : Nat → Except RpcError α`: `op idx` is the outcome of
running the operation against provider `idx` (a timeout is just one more
`RpcError`).  The result records the value or error, the cursor after the
call, and the trace of provider indices that were attempted, in order.
-/

set_option maxHeartbeats 1000000

/-- An error produced by one RPC attempt (network failure, timeout, ...). -/
structure RpcError where
  message : String
  deriving Repr, DecidableEq

/-- Embeds the JS expression `lastError?.message || '未知错误'`: the fallback
text is used when there is no recorded error or its message is empty
(the empty string is falsy in JS). -/
def lastErrorMessage : Option RpcError → String
  | some e => if e.message = "" then "未知错误" else e.message
  | none => "未知错误"

/-- The message of the aggregate error thrown when every provider failed,
exactly as built on line 91 of `ethereumService.ts`. -/
def allProvidersUnavailableMsg (lastError : Option RpcError) : String :=
  "所有 RPC 提供商都无法访问。最后一个错误: " ++ lastErrorMessage lastError

/-- Outcome of one call to the failover executor: the returned value or
thrown error, the value of `currentProviderIndex` after the call, and the
provider indices attempted, in order. -/
structure TryResult (α : Type) where
  result : Except RpcError α
  newIndex : Nat
  attempted : List Nat

/-- The `for` loop of `tryProviders` (lines 67-88): `i` is the loop counter,
`fuel` the number of remaining iterations (initially `n`), `lastError` the
accumulator.  Each iteration attempts provider `(start + i) % n`; on success
the cursor becomes that index and the loop returns; when the fuel runs out
the aggregate error is thrown and the cursor keeps its old value `start`. -/
def tryProvidersLoop {α : Type} (op : Nat → Except RpcError α) (n start : Nat) :
    Nat → Nat → Option RpcError → TryResult α
  | _, 0, lastError => ⟨.error ⟨allProvidersUnavailableMsg lastError⟩, start, []⟩
  | i, fuel+1, _lastError =>
    match op ((start + i) % n) with
    | .ok v => ⟨.ok v, (start + i) % n, [(start + i) % n]⟩
    | .error e =>
      let r := tryProvidersLoop op n start (i+1) fuel (some e)
      ⟨r.result, r.newIndex, ((start + i) % n) :: r.attempted⟩

/-- `EthereumService.tryProviders` for a pool of `n` providers with the
cursor at `start`. -/
def tryProviders {α : Type} (op : Nat → Except RpcError α) (n start : Nat) : TryResult α :=
  tryProvidersLoop op n start 0 n none

/-- The configured Sepolia RPC endpoints (lines 20-25). -/
def SEPOLIA_RPC_URLS : List String :=
  ["https://ethereum-sepolia-rpc.publicnode.com",
   "https://rpc.sepolia.org",
   "https://ethereum-sepolia.publicnode.com",
   "https://sepolia.gateway.tenderly.co"]

/-- Initial value of `currentProviderIndex` (line 40). -/
def initialProviderIndex : Nat := 0

/-- `true` exactly on a successful attempt outcome. -/
def isOkB {α : Type} : Except RpcError α → Bool
  | .ok _ => true
  | .error _ => false

/-- Shift of the attempted-index trace by one loop iteration. -/
theorem range_map_shift (start n i j : Nat) :
    (List.range (j+1+1)).map (fun k => (start + (i + k)) % n) =
      ((start + i) % n) ::
        (List.range (j+1)).map (fun k => (start + ((i+1) + k)) % n) := by
  rw [show List.range (j+1+1) = 0 :: (List.range (j+1)).map Nat.succ from
    List.range_succ_eq_map (j+1)]
  rw [List.map_cons, List.map_map]
  refine congrArg₂ _ (by simp) ?_
  refine List.map_congr_left (fun k _ => ?_)
  simp only [Function.comp_apply]
  congr 1
  omega

/-- One unfolding step of the loop at positive fuel. -/
theorem tryProvidersLoop_succ {α : Type} (op : Nat → Except RpcError α)
    (n start i fuel : Nat) (le : Option RpcError) :
    tryProvidersLoop op n start i (fuel+1) le =
      match op ((start + i) % n) with
      | .ok v => ⟨.ok v, (start + i) % n, [(start + i) % n]⟩
      | .error e =>
        ⟨(tryProvidersLoop op n start (i+1) fuel (some e)).result,
         (tryProvidersLoop op n start (i+1) fuel (some e)).newIndex,
         ((start + i) % n) :: (tryProvidersLoop op n start (i+1) fuel (some e)).attempted⟩ :=
  rfl

/-- Generalised rotation lemma for the loop: if the first `j` attempts
starting at counter `i` fail and attempt `j` succeeds, the loop returns that
attempt's value, moves the cursor to its index, and attempts exactly the
indices `(start + i + k) % n` for `k = 0..j`. -/
theorem tryProvidersLoop_first_success {α : Type} (op : Nat → Except RpcError α)
    (n start : Nat) :
    ∀ (j i fuel : Nat) (le : Option RpcError) (v : α),
      j < fuel →
      op ((start + (i + j)) % n) = .ok v →
      (∀ k, k < j → isOkB (op ((start + (i + k)) % n)) = false) →
      tryProvidersLoop op n start i fuel le =
        ⟨.ok v, (start + (i + j)) % n,
          (List.range (j+1)).map (fun k => (start + (i + k)) % n)⟩ := by
  intro j
  induction j with
  | zero =>
    intro i fuel le v hj hok _
    match fuel, hj with
    | fuel+1, _ =>
      simp only [Nat.add_zero] at hok
      rw [tryProvidersLoop_succ, hok]
      show (⟨.ok v, (start + i) % n, [(start + i) % n]⟩ : TryResult α) = _
      simp [List.range_succ]
  | succ j ih =>
    intro i fuel le v hj hok hfail
    match fuel, hj with
    | fuel+1, hj =>
      have h0 : isOkB (op ((start + (i + 0)) % n)) = false := hfail 0 (Nat.succ_pos j)
      simp only [Nat.add_zero] at h0
      match hop : op ((start + i) % n) with
      | .ok w => rw [hop] at h0; simp [isOkB] at h0
      | .error e =>
        have harith : ∀ k, start + ((i+1) + k) = start + (i + (k+1)) := by omega
        have hrec := ih (i+1) fuel (some e) v (Nat.lt_of_succ_lt_succ hj)
          (by rw [harith]; exact hok)
          (fun k hk => by rw [harith]; exact hfail (k+1) (Nat.succ_lt_succ hk))
        rw [harith j] at hrec
        rw [tryProvidersLoop_succ, hop]
        show (⟨(tryProvidersLoop op n start (i+1) fuel (some e)).result,
               (tryProvidersLoop op n start (i+1) fuel (some e)).newIndex,
               ((start + i) % n) ::
                 (tryProvidersLoop op n start (i+1) fuel (some e)).attempted⟩ :
            TryResult α) = _
        rw [hrec]
        show (⟨.ok v, (start + (i + (j+1))) % n,
               ((start + i) % n) ::
                 (List.range (j+1)).map (fun k => (start + ((i+1) + k)) % n)⟩ :
            TryResult α) = _
        rw [range_map_shift start n i j]

/-- C1: with `n ≥ 1` configured endpoints, attempt `k` uses endpoint
`(start + k) % n`; on the first attempt `j` that succeeds the result is
returned immediately, the cursor is set to that endpoint's index, and
exactly the endpoints of attempts `0..j` were tried. -/
theorem tryProviders_rotation_first_success {α : Type} (op : Nat → Except RpcError α)
    (n start j : Nat) (v : α)
    (hj : j < n)
    (hok : op ((start + j) % n) = .ok v)
    (hfail : ∀ k, k < j → isOkB (op ((start + k) % n)) = false) :
    (tryProviders op n start).result = .ok v ∧
    (tryProviders op n start).newIndex = (start + j) % n ∧
    (tryProviders op n start).attempted =
      (List.range (j+1)).map (fun k => (start + k) % n) := by
  have key := tryProvidersLoop_first_success op n start j 0 n none v hj
    (by simpa using hok) (fun k hk => by simpa using hfail k hk)
  rw [tryProviders, key]
  refine ⟨rfl, by simp, by simp⟩

def opC1 : Nat → Except RpcError Nat :=
  fun idx => if idx = 3 then .ok 42 else .error ⟨"connection refused"⟩

/-- Witness for C1: pool of 4 endpoints with cursor at 2; endpoint 2 fails,
endpoint 3 succeeds: the call returns 42, moves the cursor to 3, and tried
exactly endpoints 2 then 3. -/
theorem tryProviders_rotation_first_success_witness :
    (tryProviders opC1 4 2).result = .ok 42 ∧
    (tryProviders opC1 4 2).newIndex = 3 ∧
    (tryProviders opC1 4 2).attempted = [2, 3] := by
  have h := tryProviders_rotation_first_success opC1 4 2 1 42 (by decide)
    rfl (by decide)
  simpa using h

/-- Generalised all-fail lemma for the loop: if every remaining attempt
fails, the loop throws the aggregate error built from the last attempt's
error, leaves the cursor at `start`, and attempts all remaining indices. -/
theorem tryProvidersLoop_all_fail {α : Type} (op : Nat → Except RpcError α)
    (n start : Nat) :
    ∀ (fuel i : Nat) (le : Option RpcError) (e : RpcError),
      1 ≤ fuel →
      op ((start + (i + (fuel - 1))) % n) = .error e →
      (∀ k, k < fuel → isOkB (op ((start + (i + k)) % n)) = false) →
      tryProvidersLoop op n start i fuel le =
        ⟨.error ⟨allProvidersUnavailableMsg (some e)⟩, start,
          (List.range fuel).map (fun k => (start + (i + k)) % n)⟩ := by
  intro fuel
  induction fuel with
  | zero => intro i le e h; omega
  | succ fuel ih =>
    intro i le e _ hlast hfail
    match fuel, ih with
    | 0, _ =>
      have hlast0 : op ((start + i) % n) = .error e := by simpa using hlast
      rw [tryProvidersLoop_succ, hlast0]
      show (⟨(tryProvidersLoop op n start (i+1) 0 (some e)).result,
             (tryProvidersLoop op n start (i+1) 0 (some e)).newIndex,
             ((start + i) % n) ::
               (tryProvidersLoop op n start (i+1) 0 (some e)).attempted⟩ :
          TryResult α) = _
      simp [tryProvidersLoop, List.range_succ]
    | fuel+1, ih =>
      have h0 : isOkB (op ((start + (i + 0)) % n)) = false :=
        hfail 0 (Nat.succ_pos _)
      simp only [Nat.add_zero] at h0
      match hop : op ((start + i) % n) with
      | .ok w => rw [hop] at h0; simp [isOkB] at h0
      | .error e0 =>
        have harith : ∀ k, start + ((i+1) + k) = start + (i + (k+1)) := by omega
        have hlast' : op ((start + ((i+1) + (fuel + 1 - 1))) % n) = .error e := by
          rw [harith]
          simpa using hlast
        have hrec := ih (i+1) (some e0) e (Nat.succ_pos _) hlast'
          (fun k hk => by rw [harith]; exact hfail (k+1) (Nat.succ_lt_succ hk))
        rw [tryProvidersLoop_succ, hop]
        show (⟨(tryProvidersLoop op n start (i+1) (fuel+1) (some e0)).result,
               (tryProvidersLoop op n start (i+1) (fuel+1) (some e0)).newIndex,
               ((start + i) % n) ::
                 (tryProvidersLoop op n start (i+1) (fuel+1) (some e0)).attempted⟩ :
            TryResult α) = _
        rw [hrec]
        show (⟨.error ⟨allProvidersUnavailableMsg (some e)⟩, start,
               ((start + i) % n) ::
                 (List.range (fuel+1)).map (fun k => (start + ((i+1) + k)) % n)⟩ :
            TryResult α) = _
        rw [range_map_shift start n i fuel]

/-- C2 (amended): when all `n ≥ 1` endpoints fail, the call makes exactly
`n` attempts, fails with the aggregate error carrying the message of the
last observed error, and the cursor is unchanged. -/
theorem tryProviders_all_fail {α : Type} (op : Nat → Except RpcError α)
    (n start : Nat) (e : RpcError)
    (hn : 1 ≤ n)
    (hfail : ∀ idx, idx < n → isOkB (op idx) = false)
    (hlast : op ((start + (n - 1)) % n) = .error e) :
    (tryProviders op n start).result = .error ⟨allProvidersUnavailableMsg (some e)⟩ ∧
    (tryProviders op n start).newIndex = start ∧
    (tryProviders op n start).attempted.length = n := by
  have key := tryProvidersLoop_all_fail op n start n 0 none e hn
    (by simpa using hlast)
    (fun k _ => by simpa using hfail ((start + k) % n) (Nat.mod_lt _ hn))
  rw [tryProviders, key]
  refine ⟨rfl, rfl, by simp⟩

def opC2 : Nat → Except RpcError Nat :=
  fun idx => if idx = 2 then .error ⟨"timeout"⟩ else .error ⟨"boom"⟩

/-- Witness for C2 (amended): pool of 3 endpoints with cursor at 0, all
failing, last error "timeout": the call fails with the aggregate message
built from "timeout", the cursor stays 0, and 3 attempts were made. -/
theorem tryProviders_all_fail_witness :
    (tryProviders opC2 3 0).result =
      .error ⟨"所有 RPC 提供商都无法访问。最后一个错误: timeout"⟩ ∧
    (tryProviders opC2 3 0).newIndex = 0 ∧
    (tryProviders opC2 3 0).attempted.length = 3 := by
  have h := tryProviders_all_fail opC2 3 0 ⟨"timeout"⟩ (by decide)
    (by decide) rfl
  simpa [allProvidersUnavailableMsg, lastErrorMessage] using h

def opBoom : Nat → Except RpcError Nat := fun _ => .error ⟨"boom"⟩

/-- Counterexample for C2 as stated: a call that tried 1 endpoint and a call
that tried 2 endpoints (same last error) produce identical error values, so
the thrown error cannot carry the count of endpoints tried. -/
theorem allProvidersError_lacks_attempt_count :
    (tryProviders opBoom 1 0).attempted.length = 1 ∧
    (tryProviders opBoom 2 0).attempted.length = 2 ∧
    (tryProviders opBoom 1 0).result = (tryProviders opBoom 2 0).result :=
  ⟨rfl, rfl, rfl⟩

/-- The cursor after a call is the old value (all failed) or an attempted
index `(start + i) % n`; either way it stays below `n`. -/
theorem tryProvidersLoop_newIndex_lt {α : Type} (op : Nat → Except RpcError α)
    (n start : Nat) (h : start < n) :
    ∀ (fuel i : Nat) (le : Option RpcError),
      (tryProvidersLoop op n start i fuel le).newIndex < n := by
  intro fuel
  induction fuel with
  | zero => intro i le; exact h
  | succ fuel ih =>
    intro i le
    rw [tryProvidersLoop_succ]
    cases hop : op ((start + i) % n) with
    | ok v =>
      simp only [hop]
      exact Nat.mod_lt _ (by omega)
    | error e =>
      simp only [hop]
      exact ih (i+1) (some e)

/-- The first attempted endpoint of every call is `start % n`: the cursor is
read at the start of the call. -/
theorem tryProviders_first_attempt {α : Type} (op : Nat → Except RpcError α)
    (n start : Nat) (hn : 1 ≤ n) :
    (tryProviders op n start).attempted.head? = some (start % n) := by
  match n, hn with
  | n+1, _ =>
    rw [tryProviders, tryProvidersLoop_succ]
    cases hop : op ((start + 0) % (n+1)) with
    | ok v =>
      simp only [hop]
      simp
    | error e =>
      simp only [hop]
      simp

/-- C9: the cursor starts at 0 (below the number of configured endpoints),
is read at the start of every failover call (the first attempt is at
`start % n`), and every call preserves `newIndex < n`. -/
theorem providerIndex_invariant {α : Type} (op : Nat → Except RpcError α)
    (n start : Nat) (h : start < n) :
    initialProviderIndex = 0 ∧
    initialProviderIndex < SEPOLIA_RPC_URLS.length ∧
    (tryProviders op n start).newIndex < n ∧
    (tryProviders op n start).attempted.head? = some (start % n) :=
  ⟨rfl, by decide, tryProvidersLoop_newIndex_lt op n start h n 0 none,
    tryProviders_first_attempt op n start (by omega)⟩

def opC9 : Nat → Except RpcError Nat :=
  fun idx => if idx = 0 then .error ⟨"down"⟩ else .ok 7

/-- Witness for C9 at a pool of 4 endpoints with the cursor at 2. -/
theorem providerIndex_invariant_witness :
    initialProviderIndex = 0 ∧
    initialProviderIndex < SEPOLIA_RPC_URLS.length ∧
    (tryProviders opC9 4 2).newIndex < 4 ∧
    (tryProviders opC9 4 2).attempted.head? = some (2 % 4) :=
  providerIndex_invariant opC9 4 2 (by decide)

/-!
Embedding of `getTransactionByHash` (lines 111-149).

Numbers printed by the service (`value`, `gasUsed`, `gasPrice`,
`blockNumber`, `timestamp`, `transactionIndex`) are JS `bigint`/`number`
values rendered with `.toString()`.  We embed them as `Nat` and embed the
base-10 rendering as `decimalString`.
-/

/-- Decimal digit character (code 48 + digit). -/
def digitChar (d : Nat) : Char := Char.ofNat (48 + d)

/-- Digits of `m` in order; `fuel > m` suffices for full extraction. -/
def toDecimalAux : Nat → Nat → List Char
  | 0, _ => []
  | fuel+1, m =>
    if m < 10 then [digitChar m]
    else toDecimalAux fuel (m / 10) ++ [digitChar (m % 10)]

/-- Embeds `BigInt.prototype.toString` / `Number.prototype.toString`
(base 10) on the non-negative integers the service prints. -/
def decimalString (m : Nat) : String := ⟨toDecimalAux (m+1) m⟩

/-- Decimal parser used to state the lossless round-trip claim. -/
def decodeDecimal (s : String) : Nat :=
  s.data.foldl (fun acc c => 10 * acc + (c.toNat - 48)) 0

theorem digitChar_toNat (d : Nat) (h : d < 10) : (digitChar d).toNat - 48 = d := by
  interval_cases d <;> decide

theorem toDecimalAux_foldl (fuel : Nat) :
    ∀ m acc, m < fuel →
      (toDecimalAux fuel m).foldl (fun a c => 10 * a + (c.toNat - 48)) acc =
        acc * 10 ^ (toDecimalAux fuel m).length + m := by
  induction fuel with
  | zero => intro m acc h; omega
  | succ fuel ih =>
    intro m acc h
    by_cases hm : m < 10
    · simp only [toDecimalAux, if_pos hm, List.foldl_cons, List.foldl_nil,
        List.length_singleton, pow_one]
      rw [digitChar_toNat m hm]
      ring
    · simp only [toDecimalAux, if_neg hm, List.foldl_append, List.foldl_cons,
        List.foldl_nil, List.length_append, List.length_singleton]
      rw [ih (m / 10) acc (by omega)]
      rw [digitChar_toNat (m % 10) (Nat.mod_lt _ (by omega))]
      rw [pow_succ, ← mul_assoc]
      generalize acc * 10 ^ (toDecimalAux fuel (m / 10)).length = Q
      omega

/-- The decimal rendering is losslessly invertible: parsing the printed
string recovers the arbitrary-precision integer exactly. -/
theorem decodeDecimal_decimalString (m : Nat) : decodeDecimal (decimalString m) = m := by
  have h := toDecimalAux_foldl (m+1) m 0 (Nat.lt_succ_self m)
  simpa [decodeDecimal, decimalString] using h

/-- Raw transaction as returned by `provider.getTransaction`
(field `from` of the source is `fromAddr` here: `from` is a Lean keyword). -/
structure RawTx where
  fromAddr : String
  toAddr : Option String
  value : Nat
  gasPrice : Option Nat
  blockNumber : Nat
  index : Nat
  data : String
  deriving Repr, DecidableEq

/-- Receipt as returned by `provider.getTransactionReceipt`. -/
structure TxReceipt where
  gasUsed : Nat
  status : Bool
  deriving Repr, DecidableEq

/-- Block as returned by `provider.getBlock`. -/
structure BlockData where
  hash : String
  number : Nat
  timestamp : Nat
  deriving Repr, DecidableEq

/-- `{ address: ... }` sub-object of the canonical record. -/
structure AddressObj where
  address : String
  deriving Repr, DecidableEq

/-- `{ hash, number }` sub-object of the canonical record. -/
structure BlockObj where
  hash : String
  number : String
  deriving Repr, DecidableEq

/-- The canonical record built on lines 126-147 (source field `from` is
`sender` here: `from` is a Lean keyword). -/
structure TransactionDetail where
  id : String
  hash : String
  sender : AddressObj
  toAddr : Option AddressObj
  value : String
  gasUsed : String
  gasPrice : String
  blockNumber : String
  block : BlockObj
  timestamp : String
  status : String
  transactionIndex : String
  data : String
  deriving Repr, DecidableEq

/-- One provider's view of the chain, as consumed by `getTransactionByHash`. -/
structure TxProvider where
  getTransaction : String → Option RawTx
  getTransactionReceipt : String → Option TxReceipt
  getBlock : Nat → Option BlockData

/-- Lines 126-147: the normalized record once transaction, receipt and
block are all present. -/
def toTransactionDetail (txHash : String) (tx : RawTx) (receipt : TxReceipt)
    (block : BlockData) : TransactionDetail where
  id := txHash
  hash := txHash
  sender := ⟨tx.fromAddr⟩
  toAddr := tx.toAddr.map AddressObj.mk
  value := decimalString tx.value
  gasUsed := decimalString receipt.gasUsed
  gasPrice :=
    match tx.gasPrice with
    | some g => decimalString g
    | none => "0"
  blockNumber := decimalString tx.blockNumber
  block := ⟨block.hash, decimalString block.number⟩
  timestamp := decimalString block.timestamp
  status := if receipt.status then "1" else "0"
  transactionIndex := decimalString tx.index
  data := if tx.data = "" then "0x" else tx.data

/-- The operation run against one provider (lines 112-148): three lookups;
any absent piece yields the NotFound sentinel `none` as a normal value. -/
def getTransactionByHashOp (p : TxProvider) (txHash : String) :
    Option TransactionDetail :=
  match p.getTransaction txHash with
  | none => none
  | some tx =>
    match p.getTransactionReceipt txHash with
    | none => none
    | some receipt =>
      match p.getBlock tx.blockNumber with
      | none => none
      | some block => some (toTransactionDetail txHash tx receipt block)

/-- `EthereumService.getTransactionByHash`: the per-provider operation run
through the failover executor.  `net idx` is provider `idx`: unreachable
(`.error`) or reachable with chain view `p`. -/
def getTransactionByHash (net : Nat → Except RpcError TxProvider)
    (n start : Nat) (txHash : String) : TryResult (Option TransactionDetail) :=
  tryProviders (fun idx => (net idx).map (fun p => getTransactionByHashOp p txHash)) n start

/-- If the first attempted provider succeeds, its value is returned. -/
theorem tryProviders_first_ok {α : Type} (op : Nat → Except RpcError α)
    (n start : Nat) (v : α) (hn : 1 ≤ n)
    (h : op (start % n) = .ok v) :
    (tryProviders op n start).result = .ok v := by
  match n, hn with
  | n+1, _ =>
    rw [tryProviders, tryProvidersLoop_succ]
    have h0 : op ((start + 0) % (n+1)) = .ok v := by simpa using h
    rw [h0]

def emptyTxProvider : TxProvider :=
  ⟨fun _ => none, fun _ => none, fun _ => none⟩

def emptyNet : Nat → Except RpcError TxProvider := fun _ => .ok emptyTxProvider

/-- Counterexample for C3 as stated: on the syntactically invalid hash
"ZZZ-not-a-hash" the service does contact an endpoint (provider 0 is
attempted) and produces the ordinary NotFound result rather than any
InvalidArgument failure: there is no pre-network validation. -/
theorem getTransactionByHash_invalid_hash_contacts_endpoint :
    (getTransactionByHash emptyNet 4 0 "ZZZ-not-a-hash").attempted = [0] ∧
    (getTransactionByHash emptyNet 4 0 "ZZZ-not-a-hash").result = .ok none :=
  ⟨rfl, rfl⟩

/-- C3 (amended): `getTransactionByHash` performs no syntactic validation of
the hash: whatever the string, the failover executor is entered and the
endpoint at the cursor is contacted first, so at least one endpoint is
always contacted. -/
theorem getTransactionByHash_no_validation (net : Nat → Except RpcError TxProvider)
    (n start : Nat) (txHash : String) (hn : 1 ≤ n) :
    (getTransactionByHash net n start txHash).attempted.head? = some (start % n) ∧
    (getTransactionByHash net n start txHash).attempted ≠ [] := by
  have h := tryProviders_first_attempt
    (fun idx => (net idx).map (fun p => getTransactionByHashOp p txHash)) n start hn
  refine ⟨h, fun hemp => ?_⟩
  rw [getTransactionByHash] at hemp
  rw [hemp] at h
  simp at h

/-- Witness for C3 (amended) on an invalid hash and a 4-endpoint pool. -/
theorem getTransactionByHash_no_validation_witness :
    (getTransactionByHash emptyNet 4 0 "0xZZ").attempted.head? = some (0 % 4) ∧
    (getTransactionByHash emptyNet 4 0 "0xZZ").attempted ≠ [] :=
  getTransactionByHash_no_validation emptyNet 4 0 "0xZZ" (by decide)

/-- C7: whenever the reachable provider at the cursor is missing the raw
transaction, the receipt, or the containing block, the call returns the
NotFound sentinel `.ok none` — a normal success, not an
AllProvidersUnavailable failure and not a thrown error. -/
theorem getTransactionByHash_incomplete_is_notFound
    (net : Nat → Except RpcError TxProvider) (n start : Nat) (txHash : String)
    (p : TxProvider) (hn : 1 ≤ n)
    (hreach : net (start % n) = .ok p)
    (hmiss : p.getTransaction txHash = none ∨
             p.getTransactionReceipt txHash = none ∨
             (∀ tx, p.getTransaction txHash = some tx → p.getBlock tx.blockNumber = none)) :
    (getTransactionByHash net n start txHash).result = .ok none := by
  have hop : getTransactionByHashOp p txHash = none := by
    rcases hmiss with h1 | h2 | h3
    · simp [getTransactionByHashOp, h1]
    · cases htx : p.getTransaction txHash with
      | none => simp [getTransactionByHashOp, htx]
      | some tx => simp [getTransactionByHashOp, htx, h2]
    · cases htx : p.getTransaction txHash with
      | none => simp [getTransactionByHashOp, htx]
      | some tx =>
        cases hrc : p.getTransactionReceipt txHash with
        | none => simp [getTransactionByHashOp, htx, hrc]
        | some rc => simp [getTransactionByHashOp, htx, hrc, h3 tx htx]
  exact tryProviders_first_ok _ n start none hn (by simp [hreach, hop, Except.map])

def pendingTx : RawTx :=
  ⟨"0xSenderAddress", some "0xRecipientAddress", 5, some 2, 17, 0, "0x"⟩

/-- A provider that knows the raw transaction but has no receipt for it
yet: the pending-transaction scenario. -/
def pendingProvider : TxProvider :=
  ⟨fun h => if h = "0xabc" then some pendingTx else none,
   fun _ => none, fun _ => none⟩

def pendingNet : Nat → Except RpcError TxProvider := fun _ => .ok pendingProvider

/-- Witness for C7: a pending transaction (present, but no receipt yet)
yields `.ok none`. -/
theorem getTransactionByHash_incomplete_is_notFound_witness :
    (getTransactionByHash pendingNet 4 0 "0xabc").result = .ok none :=
  getTransactionByHash_incomplete_is_notFound pendingNet 4 0 "0xabc" pendingProvider
    (by decide) rfl (Or.inr (Or.inl rfl))

/-- C8: numeric normalization is a lossless round-trip: the canonical
record's `value` string parses back to exactly the provider's
arbitrary-precision integer, and in particular 1 ETH in wei survives
unchanged, with no floating-point or fixed-width intermediate (the
embedding is `Nat`, printed by `decimalString`). -/
theorem value_roundtrip_lossless :
    (∀ (txHash : String) (tx : RawTx) (receipt : TxReceipt) (block : BlockData),
      decodeDecimal (toTransactionDetail txHash tx receipt block).value = tx.value) ∧
    decimalString 1000000000000000000 = "1000000000000000000" ∧
    decodeDecimal "1000000000000000000" = 1000000000000000000 := by
  refine ⟨fun txHash tx receipt block => decodeDecimal_decimalString tx.value, ?_, ?_⟩
  · rfl
  · rfl

/-!
Embedding of `getTransactionsByAddress` (lines 169-231).

The per-provider operation fetches the latest block number, walks block
numbers from `latest` down to `startBlock` while fewer than `limit` records
have been collected, and inside each loaded block pushes a record for every
transaction whose `from` or `to` field equals the queried address and whose
receipt is available.  A thrown `getBlock` is caught and the block skipped.
We also return the list of block numbers whose loop iteration ran, to state
the scan-window claims.
-/

/-- A transaction object inside a fetched block (`getBlock(n, true)`), with
the fields the scan reads (`from` of the source is `fromAddr` here). -/
structure BlockTx where
  hash : String
  fromAddr : String
  toAddr : Option String
  value : Nat
  gasPrice : Option Nat
  index : Nat
  data : String
  deriving Repr, DecidableEq

/-- A fetched block: its timestamp and its `transactions` array, whose
entries are bare hash strings (skipped by the `typeof tx !== 'string'`
check on line 191) or full transaction objects. -/
structure ScanBlock where
  timestamp : Nat
  transactions : List (String ⊕ BlockTx)
  deriving Repr, DecidableEq

/-- One provider's view of the chain, as consumed by the address scan:
`getBlock` may throw (`.error`), return null (`none`), or return a block. -/
structure ScanProvider where
  latestBlockNumber : Nat
  getBlock : Nat → Except RpcError (Option ScanBlock)
  getTransactionReceipt : String → Option TxReceipt

/-- The record pushed by the scan (lines 198-215): same shape as the detail
record but with no `block` sub-object (`from` of the source is `sender`). -/
structure ScanRecord where
  id : String
  hash : String
  sender : AddressObj
  toAddr : Option AddressObj
  value : String
  gasUsed : String
  gasPrice : String
  blockNumber : String
  timestamp : String
  status : String
  transactionIndex : String
  data : String
  deriving Repr, DecidableEq

/-- Lines 198-215: the record for one matching transaction. -/
def mkScanRecord (tx : BlockTx) (receipt : TxReceipt)
    (blockNumber timestamp : Nat) : ScanRecord where
  id := tx.hash
  hash := tx.hash
  sender := ⟨tx.fromAddr⟩
  toAddr := tx.toAddr.map AddressObj.mk
  value := decimalString tx.value
  gasUsed := decimalString receipt.gasUsed
  gasPrice :=
    match tx.gasPrice with
    | some g => decimalString g
    | none => "0"
  blockNumber := decimalString blockNumber
  timestamp := decimalString timestamp
  status := if receipt.status then "1" else "0"
  transactionIndex := decimalString tx.index
  data := if tx.data = "" then "0x" else tx.data

/-- Line 193, the match guard:
`transaction.from === address || transaction.to === address` —
exact, case-sensitive string comparison; `to` may be null. -/
def addressMatches (address : String) (tx : BlockTx) : Bool :=
  tx.fromAddr == address || tx.toAddr == some address

/-- Inner loop over a block's transactions (lines 189-222): bare strings
are skipped, matching transactions with an available receipt are appended,
and the loop breaks as soon as `limit` records are collected. -/
def processBlockTxs (address : String) (limit : Nat)
    (receiptOf : String → Option TxReceipt) (blockNumber timestamp : Nat) :
    List (String ⊕ BlockTx) → List ScanRecord → List ScanRecord
  | [], acc => acc
  | .inl _ :: rest, acc =>
    processBlockTxs address limit receiptOf blockNumber timestamp rest acc
  | .inr tx :: rest, acc =>
    if addressMatches address tx then
      match receiptOf tx.hash with
      | some receipt =>
        if limit ≤ (acc ++ [mkScanRecord tx receipt blockNumber timestamp]).length then
          acc ++ [mkScanRecord tx receipt blockNumber timestamp]
        else
          processBlockTxs address limit receiptOf blockNumber timestamp rest
            (acc ++ [mkScanRecord tx receipt blockNumber timestamp])
      | none => processBlockTxs address limit receiptOf blockNumber timestamp rest acc
    else processBlockTxs address limit receiptOf blockNumber timestamp rest acc

/-- Outer loop over block numbers (lines 182-227): the loop condition
rechecks `acc.length < limit` before each iteration; a thrown `getBlock` is
caught and the block skipped (lines 223-226); a null block is skipped
(line 186).  Also returns the block numbers whose iteration ran. -/
def scanBlocks (p : ScanProvider) (address : String) (limit : Nat) :
    List Nat → List ScanRecord → List ScanRecord × List Nat
  | [], acc => (acc, [])
  | bn :: rest, acc =>
    if limit ≤ acc.length then (acc, [])
    else
      let acc2 :=
        match p.getBlock bn with
        | .error _ => acc
        | .ok none => acc
        | .ok (some blk) =>
          processBlockTxs address limit p.getTransactionReceipt bn blk.timestamp
            blk.transactions acc
      ((scanBlocks p address limit rest acc2).1,
        bn :: (scanBlocks p address limit rest acc2).2)

/-- `count` block numbers descending from `hi`. -/
def descFrom : Nat → Nat → List Nat
  | _, 0 => []
  | hi, count+1 => hi :: descFrom (hi - 1) count

/-- Line 176: `Math.min(1000, latestBlockNumber)`. -/
def blocksToSearch (latest : Nat) : Nat := min 1000 latest

/-- Line 177: `Math.max(0, latestBlockNumber - blocksToSearch)`. -/
def scanStartBlock (latest : Nat) : Nat := max 0 (latest - blocksToSearch latest)

/-- The block numbers the loop of line 182 iterates over: `latest` down to
`scanStartBlock latest`, both inclusive. -/
def scanWindow (latest : Nat) : List Nat :=
  descFrom latest (latest - scanStartBlock latest + 1)

/-- `EthereumService.getTransactionsByAddress` run against one reachable
provider (the operation passed to the failover executor, lines 170-230). -/
def getTransactionsByAddressOp (p : ScanProvider) (address : String)
    (limit : Nat) : List ScanRecord × List Nat :=
  scanBlocks p address limit (scanWindow p.latestBlockNumber) []

/-- All records a block contributes when no limit interferes: matching
transactions with receipts, in block order. -/
def matchList (address : String) (receiptOf : String → Option TxReceipt)
    (blockNumber timestamp : Nat) : List (String ⊕ BlockTx) → List ScanRecord
  | [] => []
  | .inl _ :: rest => matchList address receiptOf blockNumber timestamp rest
  | .inr tx :: rest =>
    if addressMatches address tx then
      match receiptOf tx.hash with
      | some receipt =>
        mkScanRecord tx receipt blockNumber timestamp ::
          matchList address receiptOf blockNumber timestamp rest
      | none => matchList address receiptOf blockNumber timestamp rest
    else matchList address receiptOf blockNumber timestamp rest

/-- Per-block match contribution: empty when the block fails to load or is
null. -/
def blockMatches (p : ScanProvider) (address : String) (bn : Nat) :
    List ScanRecord :=
  match p.getBlock bn with
  | .ok (some blk) =>
    matchList address p.getTransactionReceipt bn blk.timestamp blk.transactions
  | .ok none => []
  | .error _ => []

/-- Taking `k` again after an absorbed take is the same as taking `k` once. -/
theorem take_append_take {α : Type} (l m : List α) (k : Nat) :
    ((l.take k) ++ m).take k = (l ++ m).take k := by
  rw [List.take_append_eq_append_take, List.take_append_eq_append_take,
    List.take_take, Nat.min_self, List.length_take]
  have h : k - min k l.length = k - l.length := by omega
  rw [h]

/-- The inner loop is `take limit` of the unbounded match stream appended
to the accumulator, as long as the accumulator is below the limit. -/
theorem processBlockTxs_eq_take (address : String) (limit : Nat)
    (receiptOf : String → Option TxReceipt) (bn ts : Nat) :
    ∀ (txs : List (String ⊕ BlockTx)) (acc : List ScanRecord),
      acc.length < limit →
      processBlockTxs address limit receiptOf bn ts txs acc =
        (acc ++ matchList address receiptOf bn ts txs).take limit := by
  intro txs
  induction txs with
  | nil =>
    intro acc h
    simp [processBlockTxs, matchList, List.take_of_length_le (Nat.le_of_lt h)]
  | cons t rest ih =>
    intro acc h
    cases t with
    | inl s => simpa [processBlockTxs, matchList] using ih acc h
    | inr tx =>
      by_cases hg : addressMatches address tx
      · cases hrc : receiptOf tx.hash with
        | none => simpa [processBlockTxs, matchList, hg, hrc] using ih acc h
        | some rc =>
          simp only [processBlockTxs, matchList, hg, hrc, if_true]
          by_cases hlim :
              limit ≤ (acc ++ [mkScanRecord tx rc bn ts]).length
          · rw [if_pos hlim]
            have hlen : (acc ++ [mkScanRecord tx rc bn ts]).length = limit := by
              simp only [List.length_append, List.length_singleton] at hlim ⊢
              omega
            conv_rhs => rw [List.append_cons]
            rw [List.take_append_eq_append_take,
              List.take_of_length_le (le_of_eq hlen), hlen]
            simp
          · rw [if_neg hlim]
            rw [ih (acc ++ [mkScanRecord tx rc bn ts]) (by simp at hlim ⊢; omega)]
            conv_rhs => rw [List.append_cons]
      · simpa [processBlockTxs, matchList, hg] using ih acc h

/-- The outer loop is `take limit` of the per-block match streams flattened
over the remaining blocks. -/
theorem scanBlocks_eq_take (p : ScanProvider) (address : String) (limit : Nat) :
    ∀ (bns : List Nat) (acc : List ScanRecord),
      acc.length ≤ limit →
      (scanBlocks p address limit bns acc).1 =
        (acc ++ (bns.map (blockMatches p address)).flatten).take limit := by
  intro bns
  induction bns with
  | nil =>
    intro acc h
    simp [scanBlocks, List.take_of_length_le h]
  | cons bn rest ih =>
    intro acc h
    by_cases hfull : limit ≤ acc.length
    · have hlen : acc.length = limit := Nat.le_antisymm h hfull
      simp only [scanBlocks, if_pos hfull]
      rw [List.take_append_eq_append_take, List.take_of_length_le h, hlen]
      simp
    · have hlt : acc.length < limit := Nat.lt_of_not_le hfull
      simp only [scanBlocks, if_neg hfull]
      cases hgb : p.getBlock bn with
      | error e =>
        simp only [hgb]
        rw [ih acc h]
        have hbm : blockMatches p address bn = [] := by simp [blockMatches, hgb]
        simp [hbm]
      | ok ob =>
        cases ob with
        | none =>
          simp only [hgb]
          rw [ih acc h]
          have hbm : blockMatches p address bn = [] := by simp [blockMatches, hgb]
          simp [hbm]
        | some blk =>
          simp only [hgb]
          rw [processBlockTxs_eq_take address limit p.getTransactionReceipt bn
            blk.timestamp blk.transactions acc hlt]
          rw [ih _ (List.length_take_le _ _)]
          rw [take_append_take]
          have hbm : blockMatches p address bn =
              matchList address p.getTransactionReceipt bn blk.timestamp
                blk.transactions := by
            simp [blockMatches, hgb]
          simp [hbm, List.append_assoc]

/-- Master equation for the address scan: the records returned are exactly
the first `limit` of the matches found in the scan window, newest block
first. -/
theorem scan_eq_take_flatten (p : ScanProvider) (address : String) (limit : Nat) :
    (getTransactionsByAddressOp p address limit).1 =
      (((scanWindow p.latestBlockNumber).map (blockMatches p address)).flatten).take
        limit := by
  have h := scanBlocks_eq_take p address limit (scanWindow p.latestBlockNumber) []
    (Nat.zero_le _)
  simpa [getTransactionsByAddressOp] using h

/-- Every record a block contributes carries that block's number. -/
theorem matchList_blockNumber (address : String)
    (receiptOf : String → Option TxReceipt) (bn ts : Nat) :
    ∀ (txs : List (String ⊕ BlockTx)) (r : ScanRecord),
      r ∈ matchList address receiptOf bn ts txs →
      r.blockNumber = decimalString bn := by
  intro txs
  induction txs with
  | nil => intro r hr; simp [matchList] at hr
  | cons t rest ih =>
    intro r hr
    cases t with
    | inl s =>
      simp only [matchList] at hr
      exact ih r hr
    | inr tx =>
      by_cases hg : addressMatches address tx
      · cases hrc : receiptOf tx.hash with
        | none =>
          simp only [matchList, hg, hrc, if_true] at hr
          exact ih r hr
        | some rc =>
          simp only [matchList, hg, hrc, if_true, List.mem_cons] at hr
          rcases hr with rfl | hr
          · rfl
          · exact ih r hr
      · simp only [matchList, hg, if_false] at hr
        exact ih r hr

/-- The numeric block key of every contributed record is the block number. -/
theorem blockMatches_key (p : ScanProvider) (address : String) (bn : Nat)
    (r : ScanRecord) (hr : r ∈ blockMatches p address bn) :
    decodeDecimal r.blockNumber = bn := by
  unfold blockMatches at hr
  cases hgb : p.getBlock bn with
  | error e => rw [hgb] at hr; simp at hr
  | ok ob =>
    cases ob with
    | none => rw [hgb] at hr; simp at hr
    | some blk =>
      rw [hgb] at hr
      rw [matchList_blockNumber address p.getTransactionReceipt bn blk.timestamp
        blk.transactions r hr]
      exact decodeDecimal_decimalString bn

/-- Elements of `descFrom hi count` lie in `(hi - count, hi]`. -/
theorem descFrom_bounds :
    ∀ (count hi b : Nat), b ∈ descFrom hi count → b ≤ hi ∧ hi < b + count := by
  intro count
  induction count with
  | zero => intro hi b hb; simp [descFrom] at hb
  | succ count ih =>
    intro hi b hb
    simp only [descFrom, List.mem_cons] at hb
    rcases hb with rfl | hb
    · omega
    · have := ih (hi - 1) b hb
      omega

/-- The loop's block numbers are strictly descending (no underflow occurs
because the count never exceeds `hi + 1`). -/
theorem descFrom_sorted :
    ∀ (count hi : Nat), count ≤ hi + 1 →
      List.Sorted (· > ·) (descFrom hi count) := by
  intro count
  induction count with
  | zero => intro hi h; simp [descFrom]
  | succ count ih =>
    intro hi h
    simp only [descFrom]
    rw [List.sorted_cons]
    refine ⟨fun b hb => ?_, ih (hi - 1) (by omega)⟩
    have := descFrom_bounds count (hi - 1) b hb
    omega

/-- A constant list is `≥`-sorted. -/
theorem sorted_ge_of_all_eq :
    ∀ (l : List Nat) (c : Nat), (∀ x, x ∈ l → x = c) →
      List.Sorted (· ≥ ·) l := by
  intro l
  induction l with
  | nil => intro c h; simp
  | cons a rest ih =>
    intro c h
    rw [List.sorted_cons]
    refine ⟨fun b hb => ?_, ih c (fun x hx => h x (List.mem_cons_of_mem a hx))⟩
    rw [h a (List.mem_cons_self a rest), h b (List.mem_cons_of_mem a hb)]

/-- Flattening per-block record lists over strictly descending block
numbers yields `≥`-sorted block keys. -/
theorem sorted_flatten_map (f : Nat → List ScanRecord) (key : ScanRecord → Nat)
    (hkey : ∀ bn r, r ∈ f bn → key r = bn) :
    ∀ (bns : List Nat), List.Sorted (· > ·) bns →
      List.Sorted (· ≥ ·) (((bns.map f).flatten).map key) := by
  intro bns
  induction bns with
  | nil => intro h; simp
  | cons bn rest ih =>
    intro h
    rw [List.sorted_cons] at h
    simp only [List.map_cons, List.flatten_cons, List.map_append]
    show List.Pairwise _ _
    rw [List.pairwise_append]
    refine ⟨sorted_ge_of_all_eq _ bn (fun x hx => ?_), ih h.2, fun a ha b hb => ?_⟩
    · rcases List.mem_map.mp hx with ⟨r, hr, rfl⟩
      exact hkey bn r hr
    · rcases List.mem_map.mp ha with ⟨r, hr, rfl⟩
      rcases List.mem_map.mp hb with ⟨r2, hr2, rfl⟩
      rcases List.mem_flatten.mp hr2 with ⟨l, hl, hrl⟩
      rcases List.mem_map.mp hl with ⟨bn2, hbn2, rfl⟩
      have h1 := hkey bn r hr
      have h2 := hkey bn2 r2 hrl
      have h3 := h.1 bn2 hbn2
      omega

theorem descFrom_length : ∀ (count hi : Nat), (descFrom hi count).length = count := by
  intro count
  induction count with
  | zero => intro hi; rfl
  | succ count ih =>
    intro hi
    simp only [descFrom, List.length_cons, ih]

/-- A provider without data accumulates nothing, so the loop visits every
block of the window. -/
theorem scanBlocks_visits_all (p : ScanProvider) (address : String) (limit : Nat)
    (hnone : ∀ bn, p.getBlock bn = .ok none) :
    ∀ (bns : List Nat) (acc : List ScanRecord),
      acc.length < limit →
      (scanBlocks p address limit bns acc).2 = bns := by
  intro bns
  induction bns with
  | nil => intro acc h; rfl
  | cons bn rest ih =>
    intro acc h
    simp only [scanBlocks, if_neg (Nat.not_le_of_lt h), hnone bn]
    rw [ih acc h]

def emptyScanProvider1000 : ScanProvider :=
  ⟨1000, fun _ => .ok none, fun _ => none⟩

/-- C4 is violated by an off-by-one: the cap is computed as
`min 1000 latest` but the loop runs from `latest` down to
`latest - min 1000 latest` with both ends inclusive, so with
`latestBlockNumber = 1000` the scan visits 1001 blocks, one more than the
1000-block cap stated by the spec and by the code's own comments. -/
theorem scan_window_is_1001_blocks :
    blocksToSearch 1000 = 1000 ∧
    (scanWindow 1000).length = 1001 ∧
    (getTransactionsByAddressOp emptyScanProvider1000 "0xnoone" 20).2.length = 1001 := by
  have hwin : (scanWindow 1000).length = 1001 := by
    show (descFrom 1000 (1000 - scanStartBlock 1000 + 1)).length = 1001
    rw [descFrom_length]
    decide
  refine ⟨rfl, hwin, ?_⟩
  show (scanBlocks emptyScanProvider1000 "0xnoone" 20 (scanWindow 1000) []).2.length
    = 1001
  rw [scanBlocks_visits_all emptyScanProvider1000 "0xnoone" 20 (fun _ => rfl)
    (scanWindow 1000) [] (by decide)]
  exact hwin

/-- C5: the scan result is `take limit` of the match stream over the
window: at most `limit` records, block keys descending (newest first), and
exactly all matches whenever fewer than `limit` exist in the window. -/
theorem scan_results_ordered_and_bounded (p : ScanProvider) (address : String)
    (limit : Nat) :
    (getTransactionsByAddressOp p address limit).1 =
      (((scanWindow p.latestBlockNumber).map (blockMatches p address)).flatten).take
        limit ∧
    (getTransactionsByAddressOp p address limit).1.length ≤ limit ∧
    List.Sorted (· ≥ ·)
      ((getTransactionsByAddressOp p address limit).1.map
        (fun r => decodeDecimal r.blockNumber)) ∧
    ((((scanWindow p.latestBlockNumber).map (blockMatches p address)).flatten).length
        ≤ limit →
      (getTransactionsByAddressOp p address limit).1 =
        ((scanWindow p.latestBlockNumber).map (blockMatches p address)).flatten) := by
  have hmain := scan_eq_take_flatten p address limit
  have hwin : List.Sorted (· > ·) (scanWindow p.latestBlockNumber) := by
    show List.Sorted (· > ·) (descFrom p.latestBlockNumber
      (p.latestBlockNumber - scanStartBlock p.latestBlockNumber + 1))
    exact descFrom_sorted _ _ (by unfold scanStartBlock blocksToSearch; omega)
  have hs := sorted_flatten_map (blockMatches p address)
    (fun r => decodeDecimal r.blockNumber)
    (fun bn r hr => blockMatches_key p address bn r hr)
    (scanWindow p.latestBlockNumber) hwin
  refine ⟨hmain, ?_, ?_, ?_⟩
  · rw [hmain]
    exact List.length_take_le _ _
  · rw [hmain, List.map_take]
    exact List.Pairwise.sublist (List.take_sublist _ _) hs
  · intro hle
    rw [hmain, List.take_of_length_le hle]

/-- Synthetic chain for the C5 scenario: height 10, matches in blocks
10, 8 and 3 (the last as recipient), all receipts available. -/
def chainC5 : ScanProvider :=
  ⟨10,
   fun bn =>
     if bn = 10 then .ok (some ⟨100, [.inr ⟨"0xt10", "0xme", none, 1, none, 0, "0x"⟩]⟩)
     else if bn = 8 then .ok (some ⟨80, [.inr ⟨"0xt8", "0xme", none, 2, none, 0, "0x"⟩]⟩)
     else if bn = 3 then
       .ok (some ⟨30, [.inr ⟨"0xt3", "0xother", some "0xme", 3, none, 0, "0x"⟩]⟩)
     else .ok none,
   fun _ => some ⟨21000, true⟩⟩

/-- Witness for C5: with `limit = 5` and matches in blocks 10, 8, 3 only,
the scan returns exactly those three records, newest first, even though the
limit was not reached. -/
theorem scan_results_ordered_and_bounded_witness :
    ((getTransactionsByAddressOp chainC5 "0xme" 5).1.map
      (fun r => decodeDecimal r.blockNumber) = [10, 8, 3]) ∧
    (getTransactionsByAddressOp chainC5 "0xme" 5).1.length ≤ 5 ∧
    List.Sorted (· ≥ ·)
      ((getTransactionsByAddressOp chainC5 "0xme" 5).1.map
        (fun r => decodeDecimal r.blockNumber)) := by
  have h := scan_results_ordered_and_bounded chainC5 "0xme" 5
  exact ⟨by decide, h.2.1, h.2.2.1⟩

/-- Blocks mapped to the empty list contribute nothing to the flattened
match stream, so they can be filtered away. -/
theorem flatten_map_filter_of_empty (g : Nat → Bool) (f : Nat → List ScanRecord)
    (hf : ∀ b, g b = false → f b = []) :
    ∀ (bns : List Nat), ((bns.filter g).map f).flatten = (bns.map f).flatten := by
  intro bns
  induction bns with
  | nil => simp
  | cons b rest ih =>
    cases hg : g b with
    | true => simp [List.filter_cons, hg, ih]
    | false => simp [List.filter_cons, hg, ih, hf b hg]

/-- C6: a block whose fetch throws contributes no matches and is simply
skipped: the scan result is exactly the (take-limited) matches of the other
window blocks, returned as a normal list value (no error outcome exists). -/
theorem scan_skips_failing_block (p : ScanProvider) (address : String)
    (limit bad : Nat) (e : RpcError)
    (hbad : p.getBlock bad = .error e) :
    blockMatches p address bad = [] ∧
    (getTransactionsByAddressOp p address limit).1 =
      ((((scanWindow p.latestBlockNumber).filter (fun b => b ≠ bad)).map
        (blockMatches p address)).flatten).take limit := by
  have hempty : blockMatches p address bad = [] := by simp [blockMatches, hbad]
  refine ⟨hempty, ?_⟩
  rw [scan_eq_take_flatten p address limit]
  rw [flatten_map_filter_of_empty (fun b => b ≠ bad) (blockMatches p address)
    (fun b hb => by
      have hb2 : b = bad := by simpa using hb
      rw [hb2]
      exact hempty)
    (scanWindow p.latestBlockNumber)]

/-- Synthetic chain for C6: height 2; block 1 in the middle of the window
throws on fetch; blocks 2 and 0 hold matches. -/
def chainC6 : ScanProvider :=
  ⟨2,
   fun bn =>
     if bn = 2 then .ok (some ⟨20, [.inr ⟨"0xt2", "0xme", none, 1, none, 0, "0x"⟩]⟩)
     else if bn = 1 then .error ⟨"block fetch failed"⟩
     else .ok (some ⟨5, [.inr ⟨"0xt0", "0xme", none, 2, none, 1, "0x"⟩]⟩),
   fun _ => some ⟨21000, true⟩⟩

/-- Witness for C6: with block 1 unreadable, the matches of blocks 2 and 0
are still returned (a normal, non-error result). -/
theorem scan_skips_failing_block_witness :
    ((getTransactionsByAddressOp chainC6 "0xme" 20).1.map
      (fun r => decodeDecimal r.blockNumber) = [2, 0]) ∧
    blockMatches chainC6 "0xme" 1 = [] ∧
    (getTransactionsByAddressOp chainC6 "0xme" 20).1 =
      ((((scanWindow chainC6.latestBlockNumber).filter (fun b => b ≠ 1)).map
        (blockMatches chainC6 "0xme")).flatten).take 20 := by
  have h := scan_skips_failing_block chainC6 "0xme" 20 1 ⟨"block fetch failed"⟩ rfl
  exact ⟨by decide, h.1, h.2⟩

/-- The guard of line 193 is exact string equality against `from` and `to`. -/
theorem addressMatches_iff (address : String) (tx : BlockTx) :
    addressMatches address tx = true ↔
      (tx.fromAddr = address ∨ tx.toAddr = some address) := by
  simp [addressMatches]

/-- C10: a block transaction is counted as a match exactly when its sender
or recipient string equals the queried address (case-sensitive string
equality); with a receipt available it then enters the results, and an
address differing only in letter case is never matched. -/
theorem address_match_exact_equality :
    (∀ (address : String) (tx : BlockTx),
      addressMatches address tx = true ↔
        (tx.fromAddr = address ∨ tx.toAddr = some address)) ∧
    (∀ (address : String) (receiptOf : String → Option TxReceipt) (bn ts : Nat)
        (tx : BlockTx),
      matchList address receiptOf bn ts [.inr tx] ≠ [] ↔
        ((tx.fromAddr = address ∨ tx.toAddr = some address) ∧
          (receiptOf tx.hash).isSome = true)) ∧
    matchList "0xABCDEF" (fun _ => some ⟨21000, true⟩) 5 99
      [.inr ⟨"0xh1", "0xabcdef", none, 1, none, 0, "0x"⟩] = [] := by
  refine ⟨addressMatches_iff, ?_, by decide⟩
  intro address receiptOf bn ts tx
  by_cases hg : addressMatches address tx = true
  · cases hrc : receiptOf tx.hash with
    | none => simp [matchList, hg, hrc]
    | some rc =>
      simp [matchList, hg, hrc, (addressMatches_iff address tx).mp hg]
  · have hdisj : ¬(tx.fromAddr = address ∨ tx.toAddr = some address) :=
      fun hd => hg ((addressMatches_iff address tx).mpr hd)
    simp [matchList, hg, hdisj]
